import Mathlib

/-!
Verification development for the model-orchestration layer of the
SmartHomework client (source: src/services/geminiService.ts).

The embedding models:
* a JSON value type and a strict JSON.parse (used by `cleanAndParseJSON`);
* `cleanAndParseJSON` (response sanitizer, lines 27-59);
* `callAI` (tiered primary/fallback caller, lines 67-98);
* the math-lab verification resolution step of `solveMathWithCode`
  (lines 678-705);
* the homework refinement merge of `analyzeHomework` (lines 245-279);
* the chat/exam session registry (`initializeChat`, `sendChatMessage`,
  `startExamSession`, `sendExamMessage`, lines 14-17, 361-406, 811-862).

JavaScript strings are modelled as Lean `String`/`List Char`; `undefined`
values as `Option`; thrown errors as `Except`.  Machine-level float
semantics of JSON numbers are modelled exactly as decimal mantissa and
exponent (the claims under study never depend on float rounding).
-/

/-! ### Characters that the repository's scanner-sensitive syntax needs -/

/-- The double-quote character. -/
def qMark : Char := Char.ofNat 34

/-- The backslash character. -/
def bSlash : Char := Char.ofNat 92

/-- The backtick character. -/
def bTick : Char := Char.ofNat 96

/-- The opening curly brace. -/
def obr : Char := Char.ofNat 123

/-- The closing curly brace. -/
def cbr : Char := Char.ofNat 125

/-! ### JSON values -/

/-- A JSON value as produced by JavaScript `JSON.parse`.  Numbers are kept
as exact decimals `mantissa * 10 ^ exponent`. -/
inductive Json where
  | null : Json
  | bool (b : Bool) : Json
  | num (mantissa exponent : Int) : Json
  | str (s : String) : Json
  | arr (elems : List Json) : Json
  | obj (fields : List (String × Json)) : Json
deriving Repr

/-- JavaScript object property update as performed while building a parse
result: a duplicate key keeps its original position but takes the new
value; a fresh key is appended. -/
def addField (fields : List (String × Json)) (k : String) (v : Json) :
    List (String × Json) :=
  if fields.any (fun p => p.1 = k) then
    fields.map (fun p => if p.1 = k then (k, v) else p)
  else fields ++ [(k, v)]

/-- JavaScript property read `j.k`: defined for objects, `undefined`
(`none`) for every other value. -/
def Json.getField (j : Json) (k : String) : Option Json :=
  match j with
  | .obj fields => (fields.find? (fun p => p.1 = k)).map (fun p => p.2)
  | _ => none

/-- JavaScript truthiness of a JSON value. -/
def jsTruthy : Json → Bool
  | .null => false
  | .bool b => b
  | .num m _ => m ≠ 0
  | .str s => s ≠ ""
  | .arr _ => true
  | .obj _ => true

/-! ### Strict JSON.parse model -/

/-- JSON whitespace (space, tab, line feed, carriage return). -/
def isJsonWs (c : Char) : Bool :=
  c = ' ' || c = '\t' || c = '\n' || c = '\r'

/-- Drop leading JSON whitespace. -/
def skipWs (l : List Char) : List Char := l.dropWhile isJsonWs

/-- Numeric value of a digit string. -/
def digitsVal (l : List Char) : Nat :=
  l.foldl (fun a c => a * 10 + (c.toNat - 48)) 0

/-- Value of one hexadecimal digit. -/
def hexVal (c : Char) : Option Nat :=
  if c.isDigit then some (c.toNat - 48)
  else if 'a' ≤ c && c ≤ 'f' then some (c.toNat - 87)
  else if 'A' ≤ c && c ≤ 'F' then some (c.toNat - 55)
  else none

/-- Single-character JSON string escapes. -/
def escChar (e : Char) : Option Char :=
  if e = qMark then some qMark
  else if e = bSlash then some bSlash
  else if e = '/' then some '/'
  else if e = 'b' then some (Char.ofNat 8)
  else if e = 'f' then some (Char.ofNat 12)
  else if e = 'n' then some '\n'
  else if e = 'r' then some '\r'
  else if e = 't' then some '\t'
  else none

/-- Parse the body of a JSON string after the opening quote; returns the
decoded characters and the remainder after the closing quote. -/
def parseStringBody : List Char → Option (List Char × List Char)
  | [] => none
  | c :: rest =>
    if c = qMark then some ([], rest)
    else if c = bSlash then
      match rest with
      | [] => none
      | e :: r2 =>
        if e = 'u' then
          match r2 with
          | a :: b :: c2 :: d :: r3 =>
            match hexVal a, hexVal b, hexVal c2, hexVal d with
            | some ha, some hb, some hc, some hd =>
              (parseStringBody r3).map
                (fun pr => (Char.ofNat (((ha * 16 + hb) * 16 + hc) * 16 + hd) :: pr.1, pr.2))
            | _, _, _, _ => none
          | _ => none
        else
          match escChar e with
          | some ec => (parseStringBody r2).map (fun pr => (ec :: pr.1, pr.2))
          | none => none
    else if c.toNat < 32 then none
    else (parseStringBody rest).map (fun pr => (c :: pr.1, pr.2))

/-- Parse a JSON number (strict grammar: optional minus, integer part
without leading zeros, optional fraction, optional exponent). -/
def parseNumber (l : List Char) : Option (Json × List Char) :=
  let signed := match l with
    | c :: rest => if c = '-' then (true, rest) else (false, l)
    | [] => (false, l)
  let neg := signed.1
  let l1 := signed.2
  let intDigits := l1.takeWhile Char.isDigit
  let l2 := l1.drop intDigits.length
  if intDigits = [] then none
  else if intDigits.length > 1 && intDigits.head? = some '0' then none
  else
    let fracStep : Option (List Char × List Char) :=
      match l2 with
      | c :: rest =>
        if c = '.' then
          let fd := rest.takeWhile Char.isDigit
          if fd = [] then none else some (fd, rest.drop fd.length)
        else some ([], l2)
      | [] => some ([], l2)
    match fracStep with
    | none => none
    | some (fracDigits, l3) =>
      let expStep : Option (Int × List Char) :=
        match l3 with
        | c :: rest =>
          if c = 'e' || c = 'E' then
            let signed2 : Int × List Char := match rest with
              | d :: rr =>
                if d = '+' then (1, rr)
                else if d = '-' then (-1, rr)
                else (1, rest)
              | [] => (1, rest)
            let ed := signed2.2.takeWhile Char.isDigit
            if ed = [] then none
            else some (signed2.1 * (digitsVal ed : Int), signed2.2.drop ed.length)
          else some (0, l3)
        | [] => some (0, l3)
      match expStep with
      | none => none
      | some (ev, l4) =>
        let mant : Int := (digitsVal (intDigits ++ fracDigits) : Int)
        let mant := if neg then -mant else mant
        some (Json.num mant (ev - fracDigits.length), l4)

mutual

/-- Parse one JSON value (fuel-indexed recursive descent). -/
def parseVal : Nat → List Char → Option (Json × List Char)
  | 0, _ => none
  | fuel + 1, l0 =>
    let l := skipWs l0
    match l with
    | [] => none
    | c :: rest =>
      if c = obr then parseObjBody fuel rest
      else if c = '[' then parseArrBody fuel rest
      else if c = qMark then
        match parseStringBody rest with
        | some (s, r) => some (Json.str (String.mk s), r)
        | none => none
      else if l.take 4 = ['t', 'r', 'u', 'e'] then some (Json.bool true, l.drop 4)
      else if l.take 5 = ['f', 'a', 'l', 's', 'e'] then some (Json.bool false, l.drop 5)
      else if l.take 4 = ['n', 'u', 'l', 'l'] then some (Json.null, l.drop 4)
      else parseNumber l

/-- Parse an object body after the opening brace. -/
def parseObjBody : Nat → List Char → Option (Json × List Char)
  | 0, _ => none
  | fuel + 1, l0 =>
    let l := skipWs l0
    match l with
    | [] => none
    | c :: rest =>
      if c = cbr then some (Json.obj [], rest)
      else parseMembers fuel l []

/-- Parse the members of a non-empty object, accumulating fields. -/
def parseMembers : Nat → List Char → List (String × Json) → Option (Json × List Char)
  | 0, _, _ => none
  | fuel + 1, l0, acc =>
    let l := skipWs l0
    match l with
    | [] => none
    | c :: rest =>
      if c = qMark then
        match parseStringBody rest with
        | some (k, r1) =>
          match skipWs r1 with
          | [] => none
          | d :: r2 =>
            if d = ':' then
              match parseVal fuel r2 with
              | some (v, r3) =>
                let acc2 := addField acc (String.mk k) v
                match skipWs r3 with
                | [] => none
                | e :: r4 =>
                  if e = ',' then parseMembers fuel r4 acc2
                  else if e = cbr then some (Json.obj acc2, r4)
                  else none
              | none => none
            else none
        | none => none
      else none

/-- Parse an array body after the opening bracket. -/
def parseArrBody : Nat → List Char → Option (Json × List Char)
  | 0, _ => none
  | fuel + 1, l0 =>
    let l := skipWs l0
    match l with
    | [] => none
    | c :: rest =>
      if c = ']' then some (Json.arr [], rest)
      else parseElems fuel l []

/-- Parse the elements of a non-empty array, accumulating values. -/
def parseElems : Nat → List Char → List Json → Option (Json × List Char)
  | 0, _, _ => none
  | fuel + 1, l0, acc =>
    match parseVal fuel l0 with
    | some (v, r) =>
      match skipWs r with
      | [] => none
      | e :: r2 =>
        if e = ',' then parseElems fuel r2 (acc ++ [v])
        else if e = ']' then some (Json.arr (acc ++ [v]), r2)
        else none
    | none => none

end

/-- Model of strict JavaScript `JSON.parse` on a character list: parse one
value, then require only whitespace to remain.  `none` models a thrown
`SyntaxError`. -/
def jsonParse (l : List Char) : Option Json :=
  match parseVal (2 * l.length + 4) l with
  | some (v, rest) => if (skipWs rest).isEmpty then some v else none
  | none => none

/-! ### Response Sanitizer: `cleanAndParseJSON` (geminiService.ts lines 27-59) -/

/-- `text.indexOf(c)` as an optional index. -/
def firstIdx (l : List Char) (c : Char) : Option Nat :=
  match l with
  | [] => none
  | x :: t => if x = c then some 0 else (firstIdx t c).map (· + 1)

/-- `text.lastIndexOf(c)` as an optional index. -/
def lastIdx (l : List Char) (c : Char) : Option Nat :=
  match firstIdx l.reverse c with
  | some k => some (l.length - 1 - k)
  | none => none

/-- JavaScript `String.prototype.substring(a, b)`: swaps its arguments when
`a > b` and clamps to the string length. -/
def jsSubstring (l : List Char) (a b : Nat) : List Char :=
  (l.take (max a b)).drop (min a b)

/-- The primary extraction strategy of `cleanAndParseJSON` (lines 30-36):
the substring from the first opening brace to the last closing brace, when
both exist. -/
def braceCandidate (l : List Char) : Option (List Char) :=
  match firstIdx l obr, lastIdx l cbr with
  | some i, some j => some (jsSubstring l i (j + 1))
  | _, _ => none

/-- Whitespace removed by JavaScript `String.prototype.trim` (the common
ASCII white space characters). -/
def isTrimWs (c : Char) : Bool :=
  c = ' ' || c = '\t' || c = '\n' || c = '\r' || c = Char.ofNat 11 || c = Char.ofNat 12

/-- `text.trim()` on a character list. -/
def trimList (l : List Char) : List Char :=
  ((l.dropWhile isTrimWs).reverse.dropWhile isTrimWs).reverse

/-- The three-backtick fence marker. -/
def fenceChars : List Char := [bTick, bTick, bTick]

/-- The optional `(?:json)?` part of the opening-fence regular expression
(line 48): strip a literal `json` tag when present. -/
def stripJsonTag (r : List Char) : List Char :=
  if List.isPrefixOf ['j', 's', 'o', 'n'] r then r.drop 4 else r

/-- The optional trailing newline of the opening-fence regular
expression. -/
def stripNl (r : List Char) : List Char :=
  match r with
  | c :: t => if c = '\n' then t else r
  | [] => r

/-- `cleaned.replace(regexOpenFence, "")` (line 48): strip a leading
triple-backtick fence, an optional literal `json` tag, and an optional
newline. -/
def stripOpenFence (l : List Char) : List Char :=
  if List.isPrefixOf fenceChars l then stripNl (stripJsonTag (l.drop 3))
  else l

/-- `cleaned.replace(regexCloseFence, "")` (line 50): strip a trailing
triple-backtick fence together with an optional preceding newline. -/
def stripCloseFence (l : List Char) : List Char :=
  if List.isSuffixOf ('\n' :: fenceChars) l then l.take (l.length - 4)
  else if List.isSuffixOf fenceChars l then l.take (l.length - 3)
  else l

/-- The cleaned text used by the fallback strategy (lines 44-51): trim,
then strip markdown fences when the trimmed text starts with one. -/
def fenceCleaned (l : List Char) : List Char :=
  let cleaned := trimList l
  if List.isPrefixOf fenceChars cleaned then stripCloseFence (stripOpenFence cleaned)
  else cleaned

/-- The fallback path of `cleanAndParseJSON` (lines 44-58): parse the
cleaned text, and on failure return the empty object. -/
def fencePath (l : List Char) : Json :=
  match jsonParse (fenceCleaned l) with
  | some v => v
  | none => Json.obj []

/-- Model of `cleanAndParseJSON` (lines 27-59).  `none` models an absent
(`undefined`) argument; the empty string is falsy in JavaScript and takes
the same early return. -/
def cleanAndParseJSON (text : Option String) : Json :=
  match text with
  | none => Json.obj []
  | some t =>
    if t = "" then Json.obj []
    else
      let l := t.toList
      match braceCandidate l with
      | some cand =>
        match jsonParse cand with
        | some v => v
        | none => fencePath l
      | none => fencePath l

/-! ### Tiered Caller: `callAI` (geminiService.ts lines 67-98) -/

/-- A thrown JavaScript error as inspected by `callAI`: an optional
numeric `status` property, an optional `message` property, and the result
of `JSON.stringify(error)` (used when `message` is absent or empty, since
`||` treats the empty string as falsy). -/
structure JSError where
  status : Option Int
  message : Option String
  serialized : String
deriving Repr, DecidableEq

/-- Substring test on character lists (JavaScript `String.includes`). -/
def subList (pat : List Char) : List Char → Bool
  | [] => List.isPrefixOf pat []
  | c :: t => List.isPrefixOf pat (c :: t) || subList pat t

/-- Case-sensitive substring test (JavaScript `msg.includes(pat)`). -/
def containsSub (s pat : String) : Bool := subList pat.toList s.toList

/-- `error?.message || JSON.stringify(error)` (line 79). -/
def errMsg (e : JSError) : String :=
  match e.message with
  | some m => if m = "" then e.serialized else m
  | none => e.serialized

/-- Quota classification (line 80): HTTP status 429, or the message text
contains the substring "429" or "quota". -/
def isQuotaError (e : JSError) : Bool :=
  e.status == some 429 || containsSub (errMsg e) "429" || containsSub (errMsg e) "quota"

/-- The sentinel `new Error("QUOTA_EXCEEDED")` thrown at line 83. -/
def quotaExceededError : JSError :=
  { status := none, message := some "QUOTA_EXCEEDED", serialized := "" }

/-- `attemptCall` (lines 73-87): run the operation on one model; tag a
success with the model used; replace a quota-classified failure by the
sentinel error and rethrow any other failure unchanged. -/
def attemptCall (apiCall : String → Except JSError α) (model : String) :
    Except JSError (α × String) :=
  match apiCall model with
  | .ok r => .ok (r, model)
  | .error e => .error (if isQuotaError e then quotaExceededError else e)

/-- `callAI` (lines 67-98), with the list of models actually invoked (in
order) returned alongside the result so invocation counts are provable.
The operation is modelled as a function of the model identifier; each
model is invoked at most once, so determinism is not a restriction.
`fallbackModel = none` models the `null` argument, and a configured
fallback participates only when it is truthy (a nonempty string). -/
def callAI (apiCall : String → Except JSError α) (primaryModel : String)
    (fallbackModel : Option String) :
    Except JSError (α × String) × List String :=
  match attemptCall apiCall primaryModel with
  | .ok r => (.ok r, [primaryModel])
  | .error e =>
    match fallbackModel with
    | some f =>
      if e.message = some "QUOTA_EXCEEDED" && f ≠ "" then
        (attemptCall apiCall f, [primaryModel, f])
      else (.error e, [primaryModel])
    | none => (.error e, [primaryModel])

/-! ### Math pipeline resolution: `solveMathWithCode` (lines 678-705) -/

/-- `verifyData.valid === false` (strict equality, line 691). -/
def isJsonFalse : Option Json → Bool
  | some (Json.bool false) => true
  | _ => false

/-- Truthiness of an optional (possibly `undefined`) JavaScript value. -/
def jsTruthyOpt : Option Json → Bool
  | some j => jsTruthy j
  | none => false

/-- The value returned by `solveMathWithCode`: the spread payload plus the
explicitly set `modelUsed`, `sources` and `wasAutoRepaired` properties
(which override any identically-named keys of the payload). -/
structure MathLabResult where
  data : Json
  modelUsed : String
  sources : List (String × String)
  wasAutoRepaired : Bool
deriving Repr

/-- The verification/resolution step of `solveMathWithCode` (lines
678-705).  `firstPassData` is the parsed solve-stage output, `resModel`
the model that served the solve stage, and `verifyCall` the outcome of the
"Math Verification" call: `Except.error` models the call throwing (caught
at line 700), `Except.ok tx` a response whose `.text` is `tx`. -/
def solveMathResolve (firstPassData : Json) (resModel : String)
    (sources : List (String × String)) (verifyCall : Except JSError (Option String)) :
    MathLabResult :=
  match verifyCall with
  | .error _ => ⟨firstPassData, resModel, sources, false⟩
  | .ok tx =>
    let verifyData := cleanAndParseJSON tx
    if isJsonFalse (verifyData.getField "valid")
        && jsTruthyOpt (verifyData.getField "corrected_response") then
      ⟨(verifyData.getField "corrected_response").getD Json.null,
        resModel ++ " + Verified", sources, true⟩
    else ⟨firstPassData, resModel, sources, false⟩

/-! ### Homework refinement merge: `analyzeHomework` (lines 245-279) -/

/-- JavaScript strict equality `===` restricted to JSON-parsed values.
Primitives compare by value; `undefined === undefined` is true; two
objects or arrays obtained from distinct parse trees are distinct
references, hence never strictly equal. -/
def jsStrictEq : Json → Json → Bool
  | .null, .null => true
  | .bool a, .bool b => a = b
  | .num m1 e1, .num m2 e2 =>
    if e1 ≥ e2 then m1 * 10 ^ (e1 - e2).toNat = m2
    else m1 = m2 * 10 ^ (e2 - e1).toNat
  | .str a, .str b => a = b
  | _, _ => false

/-- `===` on possibly-`undefined` property reads. -/
def jsStrictEqOpt : Option Json → Option Json → Bool
  | none, none => true
  | some a, some b => jsStrictEq a b
  | _, _ => false

/-- The matching predicate of the merge (lines 263-266): same
`problem_statement` or same `student_answer`. -/
def recMatches (p fixedP : Json) : Bool :=
  jsStrictEqOpt (p.getField "problem_statement") (fixedP.getField "problem_statement")
    || jsStrictEqOpt (p.getField "student_answer") (fixedP.getField "student_answer")

/-- The validation object forced onto a merged record (line 271). -/
def forcedValidation : Json :=
  Json.obj [("status", Json.str "verified"), ("confidenceScore", Json.num 99 0),
    ("renderingNote", Json.str "AI Self-Corrected")]

/-- JavaScript object spread `{...j, k: v}`.  For an object payload this
keeps every own property (an existing `k` keeps its position but takes the
new value); for the degenerate non-object payloads the explicit property
alone is kept (enumerable own properties of primitives are not modelled,
and none arise in the pipeline's schema). -/
def setField (j : Json) (k : String) (v : Json) : Json :=
  match j with
  | .obj fields => .obj (addField fields k v)
  | _ => .obj [(k, v)]

/-- JavaScript `Array.prototype.findIndex` restricted to its successful
form: index of the first element satisfying the predicate, `none` for the
sentinel `-1`. -/
def findIdxBy (p : Json → Bool) : List Json → Option Nat
  | [] => none
  | x :: t => if p x then some 0 else (findIdxBy p t).map (· + 1)

/-- One iteration of the merge loop (lines 261-274): find the first
original record matching the corrected record and replace it in place,
forcing the `validation` property; leave the sequence unchanged when no
original matches. -/
def mergeOne (problems : List Json) (fixedP : Json) : List Json :=
  match findIdxBy (fun p => recMatches p fixedP) problems with
  | some i => problems.set i (setField fixedP "validation" forcedValidation)
  | none => problems

/-- The full merge (line 261 `forEach`): fold the corrected records over
the original sequence, each `findIndex` scanning the partially merged
sequence. -/
def mergeRefined (problems : List Json) (corrected : List Json) : List Json :=
  corrected.foldl mergeOne problems

/-- The refinement stage of `analyzeHomework` (lines 245-279) as a
function of the original problem sequence and the outcome of the
"Analysis Refinement" call.  A thrown call (`Except.error`, caught at line
276) and a parse without a non-empty `problems` array both leave the
original sequence unchanged; only a non-empty parsed `problems` array is
merged (an `problems` value that is not an array would make the `forEach`
throw inside the same `try`, again leaving the sequence unchanged). -/
def refinementStep (rawProblems : List Json) (refineOutcome : Except JSError (Option String)) :
    List Json :=
  match refineOutcome with
  | .error _ => rawProblems
  | .ok tx =>
    let refinedData := cleanAndParseJSON tx
    match refinedData.getField "problems" with
    | some (Json.arr ps) => if ps.isEmpty then rawProblems else mergeRefined rawProblems ps
    | _ => rawProblems

/-! ### Session Registry (lines 14-17, 361-406, 811-862) -/

/-- The model identifiers (lines 8-9). -/
def MODEL_SMART : String := "gemini-3-pro-preview"

/-- The fast/fallback model identifier (line 9). -/
def MODEL_FAST : String := "gemini-2.5-flash"

/-- A provider chat session handle (`ai.chats.create`), bound at creation
to one model. -/
structure ChatHandle where
  id : Nat
  model : String
deriving Repr, DecidableEq

/-- A provider turn response: optional `.text` and the grounding chunks,
each optionally carrying a `web` source `{uri, title}`. -/
structure ProviderResponse where
  text : Option String
  webChunks : List (Option (String × String))
deriving Repr, DecidableEq

/-- Source extraction loop shared by the send functions (lines 397-400 and
852-855). -/
def extractSources (r : ProviderResponse) : List (String × String) :=
  r.webChunks.filterMap id

/-- The module-level mutable state (lines 14-17). -/
structure RegistryState where
  chatSession : Option ChatHandle
  chatModelUsed : String
  examSession : Option ChatHandle
  examModelUsed : String
deriving Repr, DecidableEq

/-- The state at module load (lines 14-17): no sessions, both recorded
models initialised to `MODEL_FAST`. -/
def initialRegistry : RegistryState :=
  { chatSession := none, chatModelUsed := MODEL_FAST,
    examSession := none, examModelUsed := MODEL_FAST }

/-- Errors surfaced by the send functions. -/
inductive SendError where
  | notInitialized (msg : String)
  | provider (e : JSError)
deriving Repr, DecidableEq

/-- A successful chat turn as returned by `sendChatMessage`. -/
structure ChatTurn where
  text : String
  sources : Option (List (String × String))
  modelUsed : String
deriving Repr, DecidableEq

/-- `sendChatMessage` (lines 393-406): fail when no chat session exists;
otherwise send through the stored session (`sessionSend` models the
provider's `session.sendMessage`, whose failure propagates) and report the
module-level `chatModelUsed`. -/
def sendChatMessage (st : RegistryState)
    (sessionSend : ChatHandle → String → Except JSError ProviderResponse)
    (message : String) : Except SendError ChatTurn :=
  match st.chatSession with
  | none => .error (.notInitialized "Chat not initialized")
  | some s =>
    match sessionSend s message with
    | .error e => .error (.provider e)
    | .ok r =>
      let sources := extractSources r
      .ok ⟨r.text.getD "", if sources.length ≠ 0 then some sources else none,
        st.chatModelUsed⟩

/-- `sendExamMessage` (lines 847-862): the exam-slot analogue. -/
def sendExamMessage (st : RegistryState)
    (sessionSend : ChatHandle → String → Except JSError ProviderResponse)
    (message : String) : Except SendError ChatTurn :=
  match st.examSession with
  | none => .error (.notInitialized "Exam not started")
  | some s =>
    match sessionSend s message with
    | .error e => .error (.provider e)
    | .ok r =>
      let sources := extractSources r
      .ok ⟨r.text.getD "", if sources.length ≠ 0 then some sources else none,
        st.examModelUsed⟩

/-- `initializeChat` (lines 361-391).  The operation passed to `callAI`
(primary `MODEL_FAST`, fallback `null`, hence exactly one attempt whose
failure is classified exactly as in `attemptCall`): create a session bound
to the chosen model (`newSession`, assumed to succeed as provider session
construction is local), assign the module-level slot and recorded model,
then send the first message (`firstSend`).  The assignments precede the
send, so they persist even when the first send throws. -/
def initializeChat (st : RegistryState) (newSession : String → ChatHandle)
    (firstSend : ChatHandle → Except JSError ProviderResponse) :
    RegistryState × Except JSError (ProviderResponse × String) :=
  let model := MODEL_FAST
  let session := newSession model
  let st1 := { st with chatSession := some session, chatModelUsed := model }
  match firstSend session with
  | .ok r => (st1, .ok (r, model))
  | .error e => (st1, .error (if isQuotaError e then quotaExceededError else e))

/-- `startExamSession` (lines 754-845), restricted to its session-registry
effect: same shape as `initializeChat` on the exam slot (primary
`MODEL_FAST`, fallback `null`); the returned text defaults to "Ready.". -/
def startExamSession (st : RegistryState) (newSession : String → ChatHandle)
    (firstSend : ChatHandle → Except JSError ProviderResponse) :
    RegistryState × Except JSError (String × String) :=
  let model := MODEL_FAST
  let session := newSession model
  let st1 := { st with examSession := some session, examModelUsed := model }
  match firstSend session with
  | .ok r => (st1, .ok ((r.text.getD "Ready."), model))
  | .error e => (st1, .error (if isQuotaError e then quotaExceededError else e))

/-! ### Concrete fixtures for the homework-merge scenario (spec section 8):
three deep-analysis records with record #2 flagged at confidence 60, and a
corrected record returned by the refinement stage matching #2's
`problem_statement`. -/

/-- Original record #1 (confidence 95). -/
def hwRec1 : Json :=
  Json.obj [("problem_statement", Json.str "P1"), ("student_answer", Json.str "A1"),
    ("complete_solution", Json.str "S1"),
    ("validation_check", Json.obj [("status", Json.str "verified"),
      ("confidence_score", Json.num 95 0)])]

/-- Original record #2 (flagged: confidence 60). -/
def hwRec2 : Json :=
  Json.obj [("problem_statement", Json.str "P2"), ("student_answer", Json.str "A2"),
    ("complete_solution", Json.str "S2"),
    ("validation_check", Json.obj [("status", Json.str "warning"),
      ("confidence_score", Json.num 60 0)])]

/-- Original record #3 (confidence 90). -/
def hwRec3 : Json :=
  Json.obj [("problem_statement", Json.str "P3"), ("student_answer", Json.str "A3"),
    ("complete_solution", Json.str "S3"),
    ("validation_check", Json.obj [("status", Json.str "verified"),
      ("confidence_score", Json.num 90 0)])]

/-- Corrected record returned by the refinement stage, matching #2's
`problem_statement`. -/
def hwFix2 : Json :=
  Json.obj [("problem_statement", Json.str "P2"), ("student_answer", Json.str "A2"),
    ("complete_solution", Json.str "S2 corrected"),
    ("validation_check", Json.obj [("status", Json.str "verified"),
      ("confidence_score", Json.num 98 0)])]

/-! ## Theorems -/

/-! ### C1 / C2 : Tiered Caller -/

/-- C1: for every operation whose primary invocation fails with a
quota-classified error and that has a (truthy) fallback tier configured,
`callAI` invokes the primary exactly once and the fallback exactly once —
no third invocation — and whenever the fallback succeeds the result is
the fallback's output tagged with the fallback model identifier. -/
theorem C1_quota_fallback_once {α : Type} (apiCall : String → Except JSError α)
    (p f : String) (e : JSError) (hp : apiCall p = .error e)
    (hq : isQuotaError e = true) (hf : f ≠ "") :
    (callAI apiCall p (some f)).2 = [p, f] ∧
    (callAI apiCall p (some f)).1 = attemptCall apiCall f ∧
    (∀ v, apiCall f = .ok v → (callAI apiCall p (some f)).1 = .ok (v, f)) := by
  have hcall : callAI apiCall p (some f) = (attemptCall apiCall f, [p, f]) := by
    simp [callAI, attemptCall, hp, hq, quotaExceededError, hf]
  refine ⟨by rw [hcall], by rw [hcall], ?_⟩
  intro v hv
  rw [hcall]
  simp [attemptCall, hv]

/-- Closed witness for C1 at a concrete failing primary and succeeding
fallback. -/
theorem C1_quota_fallback_once_witness :
    (callAI (fun m => if m = "pro" then Except.error ⟨some 429, some "rate", ""⟩
        else Except.ok 7) "pro" (some "flash")).2 = ["pro", "flash"] ∧
    (callAI (fun m => if m = "pro" then Except.error ⟨some 429, some "rate", ""⟩
        else Except.ok 7) "pro" (some "flash")).1 = .ok (7, "flash") := by
  have h := C1_quota_fallback_once
    (fun m => if m = "pro" then Except.error ⟨some 429, some "rate", ""⟩ else Except.ok 7)
    "pro" "flash" ⟨some 429, some "rate", ""⟩ rfl (by decide) (by decide)
  exact ⟨h.1, h.2.2 7 rfl⟩

/-- C2 counterexample: a primary failure that is NOT quota-classified
(status is not 429 and neither "429" nor "quota" occurs in its message,
which is exactly the string "QUOTA_EXCEEDED") nevertheless triggers the
fallback, because the raw error collides with the internal sentinel.  So
the claim "the fallback is never invoked for a non-quota-classified
failure" is false: here the fallback runs and its value is returned. -/
theorem C2_sentinel_collision_counterexample :
    isQuotaError ⟨none, some "QUOTA_EXCEEDED", "e"⟩ = false ∧
    (callAI (fun m => if m = "pro" then Except.error ⟨none, some "QUOTA_EXCEEDED", "e"⟩
        else Except.ok 3) "pro" (some "flash")).2 = ["pro", "flash"] ∧
    (callAI (fun m => if m = "pro" then Except.error ⟨none, some "QUOTA_EXCEEDED", "e"⟩
        else Except.ok 3) "pro" (some "flash")).1 = .ok (3, "flash") := by
  refine ⟨rfl, rfl, rfl⟩

/-- C2 (amended): a non-quota-classified primary failure whose `message`
property is moreover not the exact sentinel string "QUOTA_EXCEEDED"
propagates unchanged and the fallback is never invoked, whether or not a
fallback is configured. -/
theorem C2_nonquota_propagates {α : Type} (apiCall : String → Except JSError α)
    (p : String) (fb : Option String) (e : JSError) (hp : apiCall p = .error e)
    (hq : isQuotaError e = false) (hs : e.message ≠ some "QUOTA_EXCEEDED") :
    callAI apiCall p fb = (.error e, [p]) := by
  cases fb with
  | none => simp [callAI, attemptCall, hp, hq]
  | some f => simp [callAI, attemptCall, hp, hq, hs]

/-- Closed witness for the amended C2 at a concrete server error. -/
theorem C2_nonquota_propagates_witness :
    callAI (fun _ => (Except.error ⟨some 500, some "server down", "e"⟩ : Except JSError Nat))
      "pro" (some "flash") = (.error ⟨some 500, some "server down", "e"⟩, ["pro"]) :=
  C2_nonquota_propagates _ "pro" (some "flash") ⟨some 500, some "server down", "e"⟩
    rfl (by decide) (by decide)

/-! ### C3 : math pipeline resolution -/

/-- C3: if the verification response parses to `valid: false` with a
truthy `corrected_response` R, the final result carries R with
`wasAutoRepaired = true` (and the "+ Verified" model tag); if it parses to
`valid: true` the solve-stage output stands with `wasAutoRepaired =
false`; a thrown verification call also leaves the solve-stage output with
`wasAutoRepaired = false` and never propagates; and `wasAutoRepaired` is
true exactly when the verification stage replaced the first-pass
result. -/
theorem C3_verification_resolution :
    (∀ fp m s e, solveMathResolve fp m s (.error e) = ⟨fp, m, s, false⟩) ∧
    (∀ fp m s tx R, (cleanAndParseJSON tx).getField "valid" = some (Json.bool false) →
      (cleanAndParseJSON tx).getField "corrected_response" = some R → jsTruthy R = true →
      solveMathResolve fp m s (.ok tx) = ⟨R, m ++ " + Verified", s, true⟩) ∧
    (∀ fp m s tx, (cleanAndParseJSON tx).getField "valid" = some (Json.bool true) →
      solveMathResolve fp m s (.ok tx) = ⟨fp, m, s, false⟩) ∧
    (∀ fp m s vc, (solveMathResolve fp m s vc).wasAutoRepaired = true ↔
      ∃ tx, vc = .ok tx ∧
        isJsonFalse ((cleanAndParseJSON tx).getField "valid") = true ∧
        jsTruthyOpt ((cleanAndParseJSON tx).getField "corrected_response") = true) := by
  refine ⟨fun fp m s e => rfl, ?_, ?_, ?_⟩
  · intro fp m s tx R hv hc ht
    simp [solveMathResolve, hv, hc, isJsonFalse, jsTruthyOpt, ht]
  · intro fp m s tx hv
    simp [solveMathResolve, hv, isJsonFalse]
  · intro fp m s vc
    cases vc with
    | error e => simp [solveMathResolve]
    | ok tx =>
      by_cases hcond : isJsonFalse ((cleanAndParseJSON tx).getField "valid") = true ∧
          jsTruthyOpt ((cleanAndParseJSON tx).getField "corrected_response") = true
      · simp [solveMathResolve, hcond.1, hcond.2]
      · rw [Decidable.not_and_iff_or_not] at hcond
        constructor
        · intro h
          exfalso
          rcases hcond with hc | hc <;>
            · simp only [solveMathResolve, Bool.not_eq_true] at h hc
              rw [hc] at h
              simp at h
        · rintro ⟨tx2, htx, h1, h2⟩
          cases htx
          rcases hcond with hc | hc <;> simp [h1, h2] at hc

/-- Closed witness for C3: a concrete verification text reporting
`valid: false` with a corrected response. -/
theorem C3_verification_resolution_witness :
    solveMathResolve (Json.obj [("result", Json.str "5")]) "gemini-3-pro-preview" []
      (.ok (some "\x7b\"valid\": false, \"corrected_response\": \x7b\"result\": \"4\"\x7d\x7d")) =
      ⟨Json.obj [("result", Json.str "4")], "gemini-3-pro-preview" ++ " + Verified", [], true⟩ :=
  C3_verification_resolution.2.1 (Json.obj [("result", Json.str "5")])
    "gemini-3-pro-preview" []
    (some "\x7b\"valid\": false, \"corrected_response\": \x7b\"result\": \"4\"\x7d\x7d")
    (Json.obj [("result", Json.str "4")]) rfl rfl rfl

/-! ### C9 / C10 : Session Registry -/

/-- C9: a send on a slot before any start on that slot fails with the
slot's "not initialized" condition; after a successful start, a send on
that slot whose underlying provider call succeeds returns the provider
text and reports the model tier recorded at start time (`MODEL_FAST`). -/
theorem C9_registry_initialization :
    (∀ ss m, sendChatMessage initialRegistry ss m =
      .error (.notInitialized "Chat not initialized")) ∧
    (∀ ss m, sendExamMessage initialRegistry ss m =
      .error (.notInitialized "Exam not started")) ∧
    (∀ st ns fs pr, (initializeChat st ns fs).2 = .ok pr →
      (initializeChat st ns fs).1.chatSession = some (ns MODEL_FAST) ∧
      (initializeChat st ns fs).1.chatModelUsed = MODEL_FAST ∧
      ∀ ss msg r, ss (ns MODEL_FAST) msg = .ok r →
        sendChatMessage (initializeChat st ns fs).1 ss msg =
          .ok ⟨r.text.getD "",
            if (extractSources r).length ≠ 0 then some (extractSources r) else none,
            MODEL_FAST⟩) ∧
    (∀ st ns fs pr, (startExamSession st ns fs).2 = .ok pr →
      (startExamSession st ns fs).1.examSession = some (ns MODEL_FAST) ∧
      (startExamSession st ns fs).1.examModelUsed = MODEL_FAST ∧
      ∀ ss msg r, ss (ns MODEL_FAST) msg = .ok r →
        sendExamMessage (startExamSession st ns fs).1 ss msg =
          .ok ⟨r.text.getD "",
            if (extractSources r).length ≠ 0 then some (extractSources r) else none,
            MODEL_FAST⟩) := by
  refine ⟨fun ss m => rfl, fun ss m => rfl, ?_, ?_⟩
  · intro st ns fs pr _
    refine ⟨?_, ?_, ?_⟩
    · cases h : fs (ns MODEL_FAST) <;> simp [initializeChat, h]
    · cases h : fs (ns MODEL_FAST) <;> simp [initializeChat, h]
    · intro ss msg r hok
      cases h : fs (ns MODEL_FAST) <;> simp [initializeChat, h, sendChatMessage, hok]
  · intro st ns fs pr _
    refine ⟨?_, ?_, ?_⟩
    · cases h : fs (ns MODEL_FAST) <;> simp [startExamSession, h]
    · cases h : fs (ns MODEL_FAST) <;> simp [startExamSession, h]
    · intro ss msg r hok
      cases h : fs (ns MODEL_FAST) <;> simp [startExamSession, h, sendExamMessage, hok]

/-- Closed witness for C9: a concrete successful start followed by a
concrete successful send on each slot, plus the not-initialized failures
at the initial state. -/
theorem C9_registry_initialization_witness :
    sendChatMessage initialRegistry (fun _ _ => .ok ⟨some "hi", []⟩) "q" =
      .error (.notInitialized "Chat not initialized") ∧
    sendExamMessage initialRegistry (fun _ _ => .ok ⟨some "hi", []⟩) "q" =
      .error (.notInitialized "Exam not started") ∧
    sendChatMessage
      (initializeChat initialRegistry (fun m => ⟨0, m⟩) (fun _ => .ok ⟨some "hello", []⟩)).1
      (fun _ _ => .ok ⟨some "turn", []⟩) "q" =
      .ok ⟨"turn", none, MODEL_FAST⟩ ∧
    sendExamMessage
      (startExamSession initialRegistry (fun m => ⟨0, m⟩) (fun _ => .ok ⟨some "hello", []⟩)).1
      (fun _ _ => .ok ⟨some "turn", []⟩) "q" =
      .ok ⟨"turn", none, MODEL_FAST⟩ := by
  have h := C9_registry_initialization
  refine ⟨h.1 _ "q", h.2.1 _ "q", ?_, ?_⟩
  · exact (h.2.2.1 initialRegistry (fun m => ⟨0, m⟩) (fun _ => .ok ⟨some "hello", []⟩)
      (⟨some "hello", []⟩, MODEL_FAST) rfl).2.2 _ "q" ⟨some "turn", []⟩ rfl
  · exact (h.2.2.2 initialRegistry (fun m => ⟨0, m⟩) (fun _ => .ok ⟨some "hello", []⟩)
      ("hello", MODEL_FAST) rfl).2.2 _ "q" ⟨some "turn", []⟩ rfl

/-- C10 (implicit claim): session start is not atomic.  The slot and the
recorded model are assigned before the first message is sent, so when the
first send throws, the start call fails but the slot already holds the
newly created session (any prior session has been replaced and is not
restored) and a subsequent send on that slot can no longer raise the
not-initialized condition. -/
theorem C10_start_not_atomic (st : RegistryState) (ns : String → ChatHandle)
    (fs : ChatHandle → Except JSError ProviderResponse) (e : JSError)
    (hfail : fs (ns MODEL_FAST) = .error e) :
    ((∃ e2, (initializeChat st ns fs).2 = .error e2) ∧
      (initializeChat st ns fs).1.chatSession = some (ns MODEL_FAST) ∧
      (initializeChat st ns fs).1.chatModelUsed = MODEL_FAST ∧
      ∀ ss msg m, sendChatMessage (initializeChat st ns fs).1 ss msg ≠
        .error (.notInitialized m)) ∧
    ((∃ e2, (startExamSession st ns fs).2 = .error e2) ∧
      (startExamSession st ns fs).1.examSession = some (ns MODEL_FAST) ∧
      (startExamSession st ns fs).1.examModelUsed = MODEL_FAST ∧
      ∀ ss msg m, sendExamMessage (startExamSession st ns fs).1 ss msg ≠
        .error (.notInitialized m)) := by
  constructor
  · refine ⟨⟨if isQuotaError e then quotaExceededError else e, by simp [initializeChat, hfail]⟩,
      by simp [initializeChat, hfail], by simp [initializeChat, hfail], ?_⟩
    intro ss msg m
    have h1 : (initializeChat st ns fs).1.chatSession = some (ns MODEL_FAST) := by
      simp [initializeChat, hfail]
    simp only [sendChatMessage, h1]
    cases h2 : ss (ns MODEL_FAST) msg <;> simp
  · refine ⟨⟨if isQuotaError e then quotaExceededError else e, by simp [startExamSession, hfail]⟩,
      by simp [startExamSession, hfail], by simp [startExamSession, hfail], ?_⟩
    intro ss msg m
    have h1 : (startExamSession st ns fs).1.examSession = some (ns MODEL_FAST) := by
      simp [startExamSession, hfail]
    simp only [sendExamMessage, h1]
    cases h2 : ss (ns MODEL_FAST) msg <;> simp

/-- Closed witness for C10: a concrete first send that throws; the failed
start still leaves the slot holding the new session and a later send
succeeds. -/
theorem C10_start_not_atomic_witness :
    (initializeChat initialRegistry (fun m => ⟨1, m⟩)
      (fun _ => .error ⟨some 500, some "boom", "e"⟩)).1.chatSession =
        some ⟨1, MODEL_FAST⟩ ∧
    sendChatMessage
      (initializeChat initialRegistry (fun m => ⟨1, m⟩)
        (fun _ => .error ⟨some 500, some "boom", "e"⟩)).1
      (fun _ _ => .ok ⟨some "later", []⟩) "q" ≠
      .error (.notInitialized "Chat not initialized") := by
  have h := C10_start_not_atomic initialRegistry (fun m => ⟨1, m⟩)
    (fun _ => .error ⟨some 500, some "boom", "e"⟩) ⟨some 500, some "boom", "e"⟩ rfl
  exact ⟨h.1.2.1, h.1.2.2.2 (fun _ _ => .ok ⟨some "later", []⟩) "q" "Chat not initialized"⟩

/-! ### C6 : sanitizer totality -/

/-- C6: `cleanAndParseJSON` is a total function (the model returns a JSON
value on every input, so no exception ever escapes); an absent argument
(and the falsy empty string) yields the empty object; and whenever both
extraction strategies fail to produce valid JSON the result is the empty
object. -/
theorem C6_sanitizer_never_throws :
    cleanAndParseJSON none = Json.obj [] ∧
    cleanAndParseJSON (some "") = Json.obj [] ∧
    ∀ s : String, ((braceCandidate s.toList).bind jsonParse = none) →
      jsonParse (fenceCleaned s.toList) = none →
      cleanAndParseJSON (some s) = Json.obj [] := by
  refine ⟨rfl, rfl, ?_⟩
  intro s h1 h2
  by_cases hs : s = ""
  · simp [cleanAndParseJSON, hs]
  · simp only [cleanAndParseJSON, hs, if_false]
    cases hb : braceCandidate s.toList with
    | none =>
      show fencePath s.toList = Json.obj []
      simp only [fencePath]
      rw [h2]
    | some cand =>
      rw [hb] at h1
      have h1' : jsonParse cand = none := h1
      show (match jsonParse cand with
        | some v => v
        | none => fencePath s.toList) = Json.obj []
      rw [h1']
      simp only [fencePath]
      rw [h2]

/-- Closed witness for C6: a prose input on which both strategies fail. -/
theorem C6_sanitizer_never_throws_witness :
    (braceCandidate "no json here".toList).bind jsonParse = none ∧
    jsonParse (fenceCleaned "no json here".toList) = none ∧
    cleanAndParseJSON (some "no json here") = Json.obj [] :=
  ⟨rfl, rfl, C6_sanitizer_never_throws.2.2 "no json here" rfl rfl⟩

/-! ### C5 : refinement failure is non-fatal -/

/-- C5: when the refinement call throws, or its response does not parse to
a non-empty `problems` array, the problem sequence is kept unchanged; the
refinement step itself is a total function of the call outcome, so a
refinement failure never fails the pipeline. -/
theorem C5_refinement_nonfatal :
    (∀ raw e, refinementStep raw (.error e) = raw) ∧
    (∀ raw tx,
      (∀ ps, (cleanAndParseJSON tx).getField "problems" = some (Json.arr ps) → ps = []) →
      refinementStep raw (.ok tx) = raw) := by
  refine ⟨fun raw e => rfl, ?_⟩
  intro raw tx h
  simp only [refinementStep]
  cases hp : (cleanAndParseJSON tx).getField "problems" with
  | none => rfl
  | some j =>
    cases j with
    | arr ps =>
      have := h ps hp
      simp [this]
    | null => rfl
    | bool b => rfl
    | num m e => rfl
    | str s => rfl
    | obj fs => rfl

/-- Closed witness for C5: a thrown refinement call, and a refinement
response that parses to no problems list. -/
theorem C5_refinement_nonfatal_witness :
    refinementStep [Json.obj [("problem_statement", Json.str "P1")]]
      (.error ⟨some 500, some "network", "e"⟩) =
      [Json.obj [("problem_statement", Json.str "P1")]] ∧
    refinementStep [Json.obj [("problem_statement", Json.str "P1")]]
      (.ok (some "I could not refine these problems.")) =
      [Json.obj [("problem_statement", Json.str "P1")]] := by
  refine ⟨C5_refinement_nonfatal.1 _ _, C5_refinement_nonfatal.2 _ _ ?_⟩
  intro ps hp
  rw [show (cleanAndParseJSON (some "I could not refine these problems.")).getField
    "problems" = none from rfl] at hp
  exact Option.noConfusion hp

/-! ### C4 : homework merge -/

/-- No element satisfies the predicate: `findIndex` returns the failure
sentinel. -/
theorem findIdxBy_none_of_forall (p : Json → Bool) :
    ∀ l : List Json, (∀ x ∈ l, p x = false) → findIdxBy p l = none := by
  intro l
  induction l with
  | nil => intro _; rfl
  | cons x t ih =>
    intro h
    have hx : p x = false := h x (by simp)
    simp [findIdxBy, hx, ih (fun y hy => h y (by simp [hy]))]

/-- Characterisation of a successful `findIndex`: the index is in range,
its element matches, and every earlier element does not (first match
wins). -/
theorem findIdxBy_some_spec (p : Json → Bool) :
    ∀ (l : List Json) (i : Nat), findIdxBy p l = some i →
      i < l.length ∧ p (l.getD i Json.null) = true ∧
      ∀ j, j < i → p (l.getD j Json.null) = false := by
  intro l
  induction l with
  | nil => intro i h; exact absurd h (by simp [findIdxBy])
  | cons x t ih =>
    intro i h
    by_cases hx : p x = true
    · simp [findIdxBy, hx] at h
      subst h
      exact ⟨by simp, by simpa using hx, fun j hj => absurd hj (by omega)⟩
    · have hx' : p x = false := by simpa using hx
      simp only [findIdxBy, hx', if_false] at h
      cases hk : findIdxBy p t with
      | none => rw [hk] at h; exact absurd h (by simp)
      | some k =>
        rw [hk] at h
        have hi : k + 1 = i := by simpa using h
        obtain ⟨h1, h2, h3⟩ := ih k hk
        subst hi
        refine ⟨by simpa using Nat.succ_lt_succ h1, by simpa using h2, ?_⟩
        intro j hj
        cases j with
        | zero => simpa using hx'
        | succ j2 =>
          rw [List.getD_cons_succ]
          exact h3 j2 (by omega)

/-- Reading an untouched position of an updated list. -/
theorem getD_set_ne (l : List Json) (i j : Nat) (x d : Json) (h : j ≠ i) :
    (l.set i x).getD j d = l.getD j d := by
  unfold List.getD
  rw [List.get?_set_ne x l (Ne.symm h)]

/-- Replacing an existing key in place keeps it findable with the new
value. -/
theorem find?_map_replace (k : String) (v : Json) :
    ∀ fields : List (String × Json), fields.any (fun p => p.1 = k) = true →
      (fields.map (fun p => if p.1 = k then (k, v) else p)).find?
        (fun p => p.1 = k) = some (k, v) := by
  intro fields
  induction fields with
  | nil => intro h; simp at h
  | cons q t ih =>
    intro hany
    by_cases hq : q.1 = k
    · simp [List.find?, hq]
    · have ht : t.any (fun p => p.1 = k) = true := by
        simp only [List.any_cons] at hany
        rcases Bool.or_eq_true_iff.mp hany with h1 | h1
        · exact absurd (by simpa using h1) hq
        · exact h1
      simp only [List.map_cons, if_neg hq]
      rw [List.find?_cons_of_neg _ (by simpa using hq)]
      exact ih ht

/-- A key absent from every field is found in the appended pair. -/
theorem find?_append_new (k : String) (v : Json) :
    ∀ fields : List (String × Json), (∀ q ∈ fields, ¬(q.1 = k)) →
      (fields ++ [(k, v)]).find? (fun p => p.1 = k) = some (k, v) := by
  intro fields
  induction fields with
  | nil => simp [List.find?]
  | cons q t ih =>
    intro hall
    rw [List.cons_append, List.find?_cons_of_neg _ (by simpa using hall q (by simp))]
    exact ih (fun r hr => hall r (by simp [hr]))

/-- `find?` of the key just written by `addField` yields the new pair. -/
theorem find?_addField (fields : List (String × Json)) (k : String) (v : Json) :
    (addField fields k v).find? (fun p => p.1 = k) = some (k, v) := by
  unfold addField
  by_cases hany : fields.any (fun p => p.1 = k)
  · rw [if_pos hany]
    exact find?_map_replace k v fields hany
  · rw [if_neg hany]
    refine find?_append_new k v fields ?_
    intro q hq
    by_contra hqk
    exact hany (List.any_eq_true.mpr ⟨q, hq, by simpa using hqk⟩)

/-- The property explicitly set by the object spread is always readable
back: `({...f, validation: V}).validation === V`. -/
theorem getField_setField (j : Json) (v : Json) :
    (setField j "validation" v).getField "validation" = some v := by
  cases j with
  | obj fields =>
    show Json.getField (Json.obj (addField fields "validation" v)) "validation" = some v
    simp only [Json.getField]
    rw [find?_addField]
    rfl
  | null => simp [setField, Json.getField, List.find?]
  | bool b => simp [setField, Json.getField, List.find?]
  | num m e => simp [setField, Json.getField, List.find?]
  | str s => simp [setField, Json.getField, List.find?]
  | arr es => simp [setField, Json.getField, List.find?]

/-- C4 counterexample: in the 3-record scenario the merge does replace
exactly record #2 and force `status: verified` with `confidenceScore: 99`,
but the forced `renderingNote` is the string "AI Self-Corrected", not
"self-corrected" as the claim states. -/
theorem C4_renderingNote_counterexample :
    mergeRefined [hwRec1, hwRec2, hwRec3] [hwFix2] =
      [hwRec1, setField hwFix2 "validation" forcedValidation, hwRec3] ∧
    forcedValidation.getField "status" = some (Json.str "verified") ∧
    forcedValidation.getField "confidenceScore" = some (Json.num 99 0) ∧
    forcedValidation.getField "renderingNote" = some (Json.str "AI Self-Corrected") ∧
    forcedValidation.getField "renderingNote" ≠ some (Json.str "self-corrected") := by
  refine ⟨rfl, rfl, rfl, rfl, ?_⟩
  intro h
  rw [show forcedValidation.getField "renderingNote" =
    some (Json.str "AI Self-Corrected") from rfl] at h
  injection h with h1
  injection h1 with h2
  exact absurd h2 (by decide)

/-- C4 (amended: the forced `renderingNote` is "AI Self-Corrected"): each
corrected record is matched against the sequence by `problem_statement` OR
`student_answer` with a first-match-wins linear scan; a match replaces
that record in place with the corrected record carrying the forced
validation object; a corrected record with no match is dropped; positions
other than the matched one are unchanged; and in the 3-record scenario
with #2 flagged, exactly record #2 is replaced while #1 and #3 stay
identical. -/
theorem C4_merge_replacement :
    (∀ probs f, (∀ p ∈ probs, recMatches p f = false) → mergeOne probs f = probs) ∧
    (∀ probs f i, findIdxBy (fun p => recMatches p f) probs = some i →
      mergeOne probs f = probs.set i (setField f "validation" forcedValidation) ∧
      i < probs.length ∧
      recMatches (probs.getD i Json.null) f = true ∧
      (∀ j, j < i → recMatches (probs.getD j Json.null) f = false) ∧
      (∀ j, j ≠ i → (mergeOne probs f).getD j Json.null = probs.getD j Json.null)) ∧
    (∀ f, (setField f "validation" forcedValidation).getField "validation" =
      some forcedValidation) ∧
    (mergeRefined [hwRec1, hwRec2, hwRec3] [hwFix2] =
      [hwRec1, setField hwFix2 "validation" forcedValidation, hwRec3]) := by
  refine ⟨?_, ?_, fun f => getField_setField f forcedValidation, rfl⟩
  · intro probs f h
    unfold mergeOne
    rw [findIdxBy_none_of_forall _ probs h]
  · intro probs f i h
    obtain ⟨h1, h2, h3⟩ := findIdxBy_some_spec _ probs i h
    have hm : mergeOne probs f = probs.set i (setField f "validation" forcedValidation) := by
      unfold mergeOne
      rw [h]
    refine ⟨hm, h1, h2, h3, ?_⟩
    intro j hj
    rw [hm, getD_set_ne _ _ _ _ _ hj]

/-- Closed witness for the amended C4, applying the replacement clause at
the concrete 3-record scenario (match index 1, i.e. record #2). -/
theorem C4_merge_replacement_witness :
    mergeOne [hwRec1, hwRec2, hwRec3] hwFix2 =
      [hwRec1, hwRec2, hwRec3].set 1 (setField hwFix2 "validation" forcedValidation) ∧
    recMatches ([hwRec1, hwRec2, hwRec3].getD 1 Json.null) hwFix2 = true ∧
    (∀ j, j < 1 → recMatches ([hwRec1, hwRec2, hwRec3].getD j Json.null) hwFix2 = false) := by
  have h := C4_merge_replacement.2.1 [hwRec1, hwRec2, hwRec3] hwFix2 1 rfl
  exact ⟨h.1, h.2.2.1, h.2.2.2.1⟩

/-! ### C7 / C8 : sanitizer extraction lemmas -/

/-- `indexOf` skips a block that does not contain the character. -/
theorem firstIdx_append (c : Char) :
    ∀ l1 l2 : List Char, (∀ a ∈ l1, ¬(a = c)) →
      firstIdx (l1 ++ l2) c = (firstIdx l2 c).map (· + l1.length) := by
  intro l1
  induction l1 with
  | nil =>
    intro l2 _
    cases h2 : firstIdx l2 c <;> simp [h2]
  | cons a t ih =>
    intro l2 h
    have ha : ¬(a = c) := h a (by simp)
    show (if a = c then some 0 else (firstIdx (t ++ l2) c).map (· + 1)) =
      (firstIdx l2 c).map (· + (a :: t).length)
    rw [if_neg ha, ih l2 (fun x hx => h x (by simp [hx]))]
    cases h2 : firstIdx l2 c with
    | none => rfl
    | some k => simp; omega

/-- `indexOf` misses entirely when the character does not occur. -/
theorem firstIdx_eq_none (c : Char) :
    ∀ l : List Char, (∀ a ∈ l, ¬(a = c)) → firstIdx l c = none := by
  intro l
  induction l with
  | nil => intro _; rfl
  | cons a t ih =>
    intro h
    show (if a = c then some 0 else (firstIdx t c).map (· + 1)) = none
    rw [if_neg (h a (by simp)), ih (fun x hx => h x (by simp [hx]))]
    rfl

/-- `indexOf` hits the head immediately. -/
theorem firstIdx_cons_self (c : Char) (t : List Char) :
    firstIdx (c :: t) c = some 0 := by
  simp [firstIdx]

/-- Primary-strategy extraction: in `pre ++ (mid ++ post)` where `pre` has
no opening brace, `post` has no closing brace, and `mid` runs from an
opening brace to a closing brace, the first-`{`/last-`}` substring is
exactly `mid`. -/
theorem braceCandidate_decomp (pre mid post : List Char)
    (hpre : ∀ a ∈ pre, ¬(a = obr)) (hpost : ∀ a ∈ post, ¬(a = cbr))
    (hhead : mid.head? = some obr) (hlast : mid.getLast? = some cbr) :
    braceCandidate (pre ++ (mid ++ post)) = some mid := by
  obtain ⟨mt, hmid⟩ : ∃ mt, mid = obr :: mt := by
    cases mid with
    | nil => exact absurd hhead (by simp)
    | cons x t =>
      refine ⟨t, ?_⟩
      simp only [List.head?_cons, Option.some.injEq] at hhead
      rw [hhead]
  have h1 : 1 ≤ mid.length := by rw [hmid]; simp
  have hmidne : mid ≠ [] := by rw [hmid]; exact List.cons_ne_nil _ _
  obtain ⟨mi, hmid2⟩ : ∃ mi, mid = mi ++ [cbr] := by
    refine ⟨mid.dropLast, ?_⟩
    have hg : mid.getLast hmidne = cbr := by
      rw [List.getLast?_eq_getLast mid hmidne] at hlast
      exact (Option.some.injEq _ _).mp hlast
    rw [← hg]
    exact (List.dropLast_append_getLast hmidne).symm
  have hfi : firstIdx (pre ++ (mid ++ post)) obr = some pre.length := by
    rw [firstIdx_append obr pre (mid ++ post) hpre]
    rw [hmid, List.cons_append, firstIdx_cons_self]
    simp
  have hla : firstIdx (pre ++ (mid ++ post)).reverse cbr = some post.length := by
    rw [List.reverse_append, List.reverse_append, List.append_assoc]
    have hrev : ∀ a ∈ post.reverse, ¬(a = cbr) := by
      intro a ha
      exact hpost a (List.mem_reverse.mp ha)
    rw [firstIdx_append cbr post.reverse (mid.reverse ++ pre.reverse) hrev]
    have hmr : mid.reverse = cbr :: mi.reverse := by
      rw [hmid2, List.reverse_append]
      rfl
    rw [hmr, List.cons_append, firstIdx_cons_self]
    simp
  have hlast2 : lastIdx (pre ++ (mid ++ post)) cbr =
      some (pre.length + mid.length - 1) := by
    unfold lastIdx
    rw [hla]
    show some ((pre ++ (mid ++ post)).length - 1 - post.length) =
      some (pre.length + mid.length - 1)
    rw [List.length_append, List.length_append]
    congr 1
    omega
  unfold braceCandidate
  rw [hfi, hlast2]
  show some (jsSubstring (pre ++ (mid ++ post)) pre.length
    (pre.length + mid.length - 1 + 1)) = some mid
  have harith : pre.length + mid.length - 1 + 1 = pre.length + mid.length := by omega
  rw [harith]
  unfold jsSubstring
  have hmin : min pre.length (pre.length + mid.length) = pre.length := by omega
  have hmax : max pre.length (pre.length + mid.length) = pre.length + mid.length := by omega
  rw [hmin, hmax]
  have htake : (pre ++ (mid ++ post)).take (pre.length + mid.length) = pre ++ mid := by
    rw [← List.append_assoc]
    have hlen : pre.length + mid.length = (pre ++ mid).length := by simp
    rw [hlen]
    exact List.take_left (pre ++ mid) post
  rw [htake]
  rw [List.drop_left pre mid]

/-- When the first-`{`/last-`}` substring of the input is valid JSON, the
sanitizer returns its parse (the primary strategy, lines 30-42). -/
theorem cleanAndParseJSON_primary (s : String) (pre mid post : List Char) (v : Json)
    (hdecomp : s.toList = pre ++ (mid ++ post))
    (hpre : ∀ a ∈ pre, ¬(a = obr)) (hpost : ∀ a ∈ post, ¬(a = cbr))
    (hhead : mid.head? = some obr) (hlast : mid.getLast? = some cbr)
    (hparse : jsonParse mid = some v) :
    cleanAndParseJSON (some s) = v := by
  have hs : ¬(s = "") := by
    intro h
    rw [h] at hdecomp
    have h0 : ([] : List Char) = pre ++ (mid ++ post) := hdecomp
    have hmidnil : mid = [] := (List.append_eq_nil.mp
      (List.append_eq_nil.mp h0.symm).2).1
    rw [hmidnil] at hhead
    exact Option.noConfusion hhead
  have hb : braceCandidate s.toList = some mid := by
    rw [hdecomp]
    exact braceCandidate_decomp pre mid post hpre hpost hhead hlast
  simp only [cleanAndParseJSON, hs, if_false]
  cases hb2 : braceCandidate s.toList with
  | none => rw [hb] at hb2; exact Option.noConfusion hb2
  | some cand =>
    have hcm : cand = mid := by
      rw [hb] at hb2
      injection hb2 with hx
      exact hx.symm
    subst hcm
    show (match jsonParse cand with
      | some w => w
      | none => fencePath s.toList) = v
    rw [hparse]

/-- C7 counterexample: the text contains a balanced JSON object span
surrounded by prose, but the prose after the span contains a stray closing
brace, so the primary extraction grabs an unparsable substring, every
strategy fails, and the sanitizer returns the empty object instead of the
embedded object. -/
theorem C7_prose_counterexample :
    "Result: \x7b\"a\": 1\x7d. Note: extra \x7d here".toList =
      "Result: ".toList ++ ("\x7b\"a\": 1\x7d".toList ++ ". Note: extra \x7d here".toList) ∧
    jsonParse "\x7b\"a\": 1\x7d".toList = some (Json.obj [("a", Json.num 1 0)]) ∧
    cleanAndParseJSON (some "Result: \x7b\"a\": 1\x7d. Note: extra \x7d here") =
      Json.obj [] ∧
    Json.obj [] ≠ Json.obj [("a", Json.num 1 0)] := by
  refine ⟨rfl, rfl, rfl, by simp⟩

/-- C7 (amended): for text `pre ++ mid ++ post` where `mid` is a balanced
`{...}` span parsing as JSON value `v`, the surrounding prose `pre`
contains no opening brace and `post` contains no closing brace, the
sanitizer returns `v` via the primary strategy. -/
theorem C7_prose_extraction (s : String) (pre mid post : List Char) (v : Json)
    (hdecomp : s.toList = pre ++ (mid ++ post))
    (hpre : ∀ a ∈ pre, ¬(a = obr)) (hpost : ∀ a ∈ post, ¬(a = cbr))
    (hhead : mid.head? = some obr) (hlast : mid.getLast? = some cbr)
    (hparse : jsonParse mid = some v) :
    cleanAndParseJSON (some s) = v :=
  cleanAndParseJSON_primary s pre mid post v hdecomp hpre hpost hhead hlast hparse

/-- Closed witness for the amended C7 on a concrete prose-wrapped
object. -/
theorem C7_prose_extraction_witness :
    cleanAndParseJSON (some "Sure! \x7b\"a\": 1\x7d thanks") =
      Json.obj [("a", Json.num 1 0)] :=
  C7_prose_extraction "Sure! \x7b\"a\": 1\x7d thanks"
    "Sure! ".toList "\x7b\"a\": 1\x7d".toList " thanks".toList
    (Json.obj [("a", Json.num 1 0)]) rfl (by decide) (by decide) rfl rfl rfl

/-- A list is a prefix of itself followed by anything. -/
theorem isPrefixOf_append_self : ∀ l t : List Char, List.isPrefixOf l (l ++ t) = true := by
  intro l
  induction l with
  | nil => intro t; simp [List.isPrefixOf]
  | cons a as ih =>
    intro t
    show (a == a && List.isPrefixOf as (as ++ t)) = true
    rw [ih t]
    simp

/-- `trim` keeps a text whose first and last characters are not white
space. -/
theorem trimList_id (l : List Char) (a b : Char) (ha : l.head? = some a)
    (hwa : isTrimWs a = false) (hb : l.getLast? = some b)
    (hwb : isTrimWs b = false) : trimList l = l := by
  have h1 : l.dropWhile isTrimWs = l := by
    cases l with
    | nil => rfl
    | cons x t =>
      simp only [List.head?_cons, Option.some.injEq] at ha
      rw [List.dropWhile_cons]
      rw [ha, hwa]
      simp
  have h2 : l.reverse.dropWhile isTrimWs = l.reverse := by
    have hrh : l.reverse.head? = some b := by
      rw [List.head?_reverse]
      exact hb
    cases hr : l.reverse with
    | nil => rfl
    | cons x t =>
      rw [hr] at hrh
      simp only [List.head?_cons, Option.some.injEq] at hrh
      rw [List.dropWhile_cons, hrh, hwb]
      simp
  unfold trimList
  rw [h1, h2, List.reverse_reverse]

/-- Stripping the trailing fence of `content ++ "\n(fence)"` returns the
content. -/
theorem stripCloseFence_fenced (c : List Char) :
    stripCloseFence (c ++ ('\n' :: fenceChars)) = c := by
  unfold stripCloseFence
  have hsuf : List.isSuffixOf ('\n' :: fenceChars) (c ++ ('\n' :: fenceChars)) = true := by
    unfold List.isSuffixOf
    rw [List.reverse_append]
    exact isPrefixOf_append_self _ _
  rw [hsuf]
  simp only [if_true]
  have hlen : (c ++ ('\n' :: fenceChars)).length - 4 = c.length := by
    simp [fenceChars]
  rw [hlen]
  exact List.take_left c ('\n' :: fenceChars)

/-- Cleaning the fallback text of a fenced block with no language tag or
the tag `json` recovers exactly the fenced content. -/
theorem fenceCleaned_wrap (tag c : List Char)
    (htag : tag = [] ∨ tag = ['j', 's', 'o', 'n']) :
    fenceCleaned (fenceChars ++ (tag ++ ('\n' :: (c ++ ('\n' :: fenceChars))))) = c := by
  have hassoc : fenceChars ++ (tag ++ ('\n' :: (c ++ ('\n' :: fenceChars)))) =
      (fenceChars ++ (tag ++ ('\n' :: c))) ++ ('\n' :: fenceChars) := by
    simp
  have hlast : (fenceChars ++ (tag ++ ('\n' :: (c ++ ('\n' :: fenceChars))))).getLast? =
      some bTick := by
    rw [hassoc, List.getLast?_append_cons]
    rfl
  have htrim : trimList (fenceChars ++ (tag ++ ('\n' :: (c ++ ('\n' :: fenceChars))))) =
      fenceChars ++ (tag ++ ('\n' :: (c ++ ('\n' :: fenceChars)))) :=
    trimList_id _ bTick bTick rfl (by decide) hlast (by decide)
  have hopen : stripOpenFence (fenceChars ++ (tag ++ ('\n' :: (c ++ ('\n' :: fenceChars))))) =
      c ++ ('\n' :: fenceChars) := by
    unfold stripOpenFence
    rw [isPrefixOf_append_self]
    simp only [if_true]
    have hdrop : (fenceChars ++ (tag ++ ('\n' :: (c ++ ('\n' :: fenceChars))))).drop 3 =
        tag ++ ('\n' :: (c ++ ('\n' :: fenceChars))) := by
      show (fenceChars ++ (tag ++ ('\n' :: (c ++ ('\n' :: fenceChars))))).drop
        fenceChars.length = _
      exact List.drop_left fenceChars _
    rw [hdrop]
    rcases htag with h | h
    · subst h
      have hjt : stripJsonTag ('\n' :: (c ++ ('\n' :: fenceChars))) =
          '\n' :: (c ++ ('\n' :: fenceChars)) := by
        unfold stripJsonTag
        rw [show List.isPrefixOf ['j', 's', 'o', 'n']
          ('\n' :: (c ++ ('\n' :: fenceChars))) = false from by simp [List.isPrefixOf]]
        simp
      rw [show ([] : List Char) ++ ('\n' :: (c ++ ('\n' :: fenceChars))) =
        '\n' :: (c ++ ('\n' :: fenceChars)) from rfl]
      rw [hjt]
      simp [stripNl]
    · subst h
      have hjt : stripJsonTag (['j', 's', 'o', 'n'] ++ ('\n' :: (c ++ ('\n' :: fenceChars)))) =
          '\n' :: (c ++ ('\n' :: fenceChars)) := by
        unfold stripJsonTag
        rw [show List.isPrefixOf ['j', 's', 'o', 'n']
          (['j', 's', 'o', 'n'] ++ ('\n' :: (c ++ ('\n' :: fenceChars)))) = true from
          isPrefixOf_append_self _ _]
        simp
      rw [hjt]
      simp [stripNl]
  unfold fenceCleaned
  show (if List.isPrefixOf fenceChars
      (trimList (fenceChars ++ (tag ++ ('\n' :: (c ++ ('\n' :: fenceChars)))))) = true
    then stripCloseFence (stripOpenFence
      (trimList (fenceChars ++ (tag ++ ('\n' :: (c ++ ('\n' :: fenceChars)))))))
    else trimList (fenceChars ++ (tag ++ ('\n' :: (c ++ ('\n' :: fenceChars)))))) = c
  rw [htrim, isPrefixOf_append_self]
  simp only [if_true]
  rw [hopen]
  exact stripCloseFence_fenced c

/-- No opening brace anywhere: the primary strategy has no candidate. -/
theorem braceCandidate_none_left (T : List Char) (h : ∀ a ∈ T, ¬(a = obr)) :
    braceCandidate T = none := by
  unfold braceCandidate
  rw [firstIdx_eq_none obr T h]

/-- No closing brace anywhere: the primary strategy has no candidate. -/
theorem braceCandidate_none_right (T : List Char) (h : ∀ a ∈ T, ¬(a = cbr)) :
    braceCandidate T = none := by
  unfold braceCandidate
  have hl : lastIdx T cbr = none := by
    unfold lastIdx
    rw [firstIdx_eq_none cbr T.reverse (fun a ha => h a (List.mem_reverse.mp ha))]
  rw [hl]
  cases hf : firstIdx T obr <;> rfl

/-- Any character of a fenced block is a backtick, a tag character, a
newline, or a content character. -/
theorem mem_wrap_cases (tag c : List Char) (a : Char)
    (ha : a ∈ fenceChars ++ (tag ++ ('\n' :: (c ++ ('\n' :: fenceChars))))) :
    a = bTick ∨ a ∈ tag ∨ a = '\n' ∨ a ∈ c := by
  simp only [fenceChars, List.mem_append, List.mem_cons, List.not_mem_nil, or_false] at ha
  tauto

/-- C8 counterexample.  First: a fence whose language tag is `python`
with valid JSON array content — the fence stripper only removes a `json`
tag, every strategy fails, and the sanitizer returns the empty object
rather than the array.  Second: a fence with the `json` tag whose content
is an array containing an object — the primary brace strategy extracts and
returns the inner object rather than the fenced array. -/
theorem C8_fence_counterexample :
    jsonParse "[1, 2]".toList = some (Json.arr [Json.num 1 0, Json.num 2 0]) ∧
    cleanAndParseJSON (some "```python\n[1, 2]\n```") = Json.obj [] ∧
    Json.obj [] ≠ Json.arr [Json.num 1 0, Json.num 2 0] ∧
    jsonParse "[\x7b\"a\": 1\x7d]".toList =
      some (Json.arr [Json.obj [("a", Json.num 1 0)]]) ∧
    cleanAndParseJSON (some "```json\n[\x7b\"a\": 1\x7d]\n```") =
      Json.obj [("a", Json.num 1 0)] ∧
    Json.obj [("a", Json.num 1 0)] ≠ Json.arr [Json.obj [("a", Json.num 1 0)]] := by
  refine ⟨rfl, rfl, by simp, rfl, rfl, by simp⟩

/-- C8 (amended): for text wrapped in a triple-backtick fence whose
content is valid JSON, the sanitizer returns the parsed content value
provided that either (a) the content is a brace-delimited object (then any
brace-free language tag is tolerated, via the primary strategy), or (b)
the language tag is absent or exactly `json` and the content does not
contain both an opening and a closing brace (then the fence-stripping
fallback strategy applies). -/
theorem C8_fence_stripping (s : String) (tag c : List Char) (v : Json)
    (hdecomp : s.toList = fenceChars ++ (tag ++ ('\n' :: (c ++ ('\n' :: fenceChars)))))
    (hparse : jsonParse c = some v) :
    ((∀ a ∈ tag, ¬(a = obr)) → c.head? = some obr → c.getLast? = some cbr →
      cleanAndParseJSON (some s) = v) ∧
    ((tag = [] ∨ tag = ['j', 's', 'o', 'n']) →
      ((∀ a ∈ c, ¬(a = obr)) ∨ (∀ a ∈ c, ¬(a = cbr))) →
      cleanAndParseJSON (some s) = v) := by
  constructor
  · intro htag hchead hclast
    refine cleanAndParseJSON_primary s (fenceChars ++ (tag ++ ['\n'])) c
      ('\n' :: fenceChars) v ?_ ?_ ?_ hchead hclast hparse
    · rw [hdecomp]
      simp
    · intro a ha
      simp only [fenceChars, List.mem_append, List.mem_cons, List.not_mem_nil,
        or_false] at ha
      rcases ha with (h | h | h) | h | h
      · subst h; decide
      · subst h; decide
      · subst h; decide
      · exact htag a h
      · subst h; decide
    · intro a ha
      simp only [fenceChars, List.mem_cons, List.not_mem_nil, or_false] at ha
      rcases ha with h | h | h | h <;> (subst h; decide)
  · intro htag hbrace
    have hs : ¬(s = "") := by
      intro h
      rw [h] at hdecomp
      exact absurd (List.append_eq_nil.mp hdecomp.symm).1 (by decide)
    have hnone : braceCandidate s.toList = none := by
      rw [hdecomp]
      have htagchars : ∀ a ∈ tag, ¬(a = obr) ∧ ¬(a = cbr) := by
        intro a ha
        rcases htag with ht | ht
        · subst ht; exact absurd ha (List.not_mem_nil a)
        · subst ht
          simp only [List.mem_cons, List.not_mem_nil, or_false] at ha
          rcases ha with h | h | h | h <;> (subst h; exact ⟨by decide, by decide⟩)
      rcases hbrace with hno | hno
      · apply braceCandidate_none_left
        intro a ha
        rcases mem_wrap_cases tag c a ha with h | h | h | h
        · subst h; decide
        · exact (htagchars a h).1
        · subst h; decide
        · exact hno a h
      · apply braceCandidate_none_right
        intro a ha
        rcases mem_wrap_cases tag c a ha with h | h | h | h
        · subst h; decide
        · exact (htagchars a h).2
        · subst h; decide
        · exact hno a h
    simp only [cleanAndParseJSON, hs, if_false]
    cases hb2 : braceCandidate s.toList with
    | some cand => rw [hnone] at hb2; exact Option.noConfusion hb2
    | none =>
      show fencePath s.toList = v
      unfold fencePath
      rw [show fenceCleaned s.toList = c from by
        rw [hdecomp]; exact fenceCleaned_wrap tag c htag]
      rw [hparse]

/-- Closed witness for the amended C8: an object fenced under a `python`
tag (clause a), and an array fenced under a `json` tag (clause b). -/
theorem C8_fence_stripping_witness :
    cleanAndParseJSON (some "```python\n\x7b\"a\": 1\x7d\n```") =
      Json.obj [("a", Json.num 1 0)] ∧
    cleanAndParseJSON (some "```json\n[1, 2]\n```") =
      Json.arr [Json.num 1 0, Json.num 2 0] := by
  constructor
  · exact (C8_fence_stripping "```python\n\x7b\"a\": 1\x7d\n```"
      "python".toList "\x7b\"a\": 1\x7d".toList (Json.obj [("a", Json.num 1 0)])
      rfl rfl).1 (by decide) rfl rfl
  · exact (C8_fence_stripping "```json\n[1, 2]\n```"
      "json".toList "[1, 2]".toList (Json.arr [Json.num 1 0, Json.num 2 0])
      rfl rfl).2 (Or.inr rfl) (Or.inl (by decide))
